import Mathlib

/-!
# Verification of eric6 dialog parsers and helpers

A shallow embedding of the parsing and bookkeeping code of several eric6
dialogs, together with theorems about their behaviour:

* `GitReflogBrowserDialog` — reflog buffer processing and process shutdown;
* `HgBookmarksListDialog` — bookmarks output line parsing;
* `HgQueuesListGuardsDialog` — guards list construction;
* `WebBrowserLanguagesDialog.httpString` — Accept-Language string building
  (with an exact model of the binary64 arithmetic it performs);
* `WebInspector` — the view registry;
* `PythonPage.save` — encoding preference persistence.

Python strings are modelled as `List Char`; Python exceptions as an error
sum; Qt tree/list widgets as Lean lists of row values.
-/

set_option maxRecDepth 8000

namespace Eric6

/-- Python strings, modelled as lists of characters. -/
abbrev PyStr := List Char

/-- Coerce a Lean string literal to the `PyStr` model. -/
def pystr (s : String) : PyStr := s.toList

/-- The characters Python's `str.strip` / `str.split()` treat as whitespace
(the ASCII ones; no other whitespace appears in the inputs considered). -/
def pyIsSpace (c : Char) : Bool :=
  c = ' ' || c = '\t' || c = '\n' || c = '\r' || c = '\x0b' || c = '\x0c'

/-- Python `str.lstrip()`. -/
def lstrip (s : PyStr) : PyStr := s.dropWhile pyIsSpace

/-- Python `str.rstrip()`. -/
def rstrip (s : PyStr) : PyStr := (s.reverse.dropWhile pyIsSpace).reverse

/-- Python `str.strip()`. -/
def strip (s : PyStr) : PyStr := lstrip (rstrip s)

/-- Python `s.split(sep, 1)` for a non-empty separator: `none` models the
one-element result (separator absent), `some (a, b)` the split at the first
occurrence. -/
def splitFirst (sep : PyStr) : PyStr → Option (PyStr × PyStr)
  | [] => none
  | c :: rest =>
    if sep.isPrefixOf (c :: rest) then some ([], (c :: rest).drop sep.length)
    else
      match splitFirst sep rest with
      | none => none
      | some (a, b) => some (c :: a, b)

/-- Whether `sep` occurs in `s` (Python `sep in s` for the uses below). -/
def containsSub (sep s : PyStr) : Bool := (splitFirst sep s).isSome

/-- Helper for `splitWs`: accumulate the current token (reversed). -/
def splitWsAux : PyStr → PyStr → List PyStr
  | acc, [] => if acc = [] then [] else [acc.reverse]
  | acc, c :: rest =>
    if pyIsSpace c then
      if acc = [] then splitWsAux [] rest
      else acc.reverse :: splitWsAux [] rest
    else splitWsAux (c :: acc) rest

/-- Python `str.split()` with no argument: split on runs of whitespace,
discarding empty tokens. -/
def splitWs (s : PyStr) : List PyStr := splitWsAux [] s

/-- Python `sep.join(xs)`. -/
def pyJoin (sep : PyStr) (xs : List PyStr) : PyStr := List.intercalate sep xs

/-- Helper for `pySplitlines`: accumulate the current line (reversed). -/
def splitlinesAux : PyStr → PyStr → List PyStr
  | acc, [] => if acc = [] then [] else [acc.reverse]
  | acc, '\r' :: '\n' :: rest => acc.reverse :: splitlinesAux [] rest
  | acc, '\r' :: rest => acc.reverse :: splitlinesAux [] rest
  | acc, '\n' :: rest => acc.reverse :: splitlinesAux [] rest
  | acc, c :: rest => splitlinesAux (c :: acc) rest

/-- Python `str.splitlines()` for the terminators `\n`, `\r`, `\r\n`
(the ones subprocess output contains). -/
def pySplitlines (s : PyStr) : List PyStr := splitlinesAux [] s

/-- The Python exceptions the modelled code can raise. -/
inductive PyErr
  | nameError
  | keyError
  | valueError
  | indexError
deriving DecidableEq

/-! ## `GitReflogBrowserDialog` — reflog buffer processing

From `Plugins/VcsPlugins/vcsGit/GitReflogBrowserDialog.py`.  A tree row of
the reflog browser (`__generateReflogItem` column labels). -/

structure ReflogRow where
  commitId : PyStr
  selector : PyStr
  name : PyStr
  operation : PyStr
  subject : PyStr
deriving DecidableEq

/-- `GitReflogBrowserDialog.__generateReflogItem`:
`operation, subject = subject.strip().split(": ", 1)` raises `ValueError`
when the separator is absent; otherwise one tree row is built from the
five column labels. -/
def generateReflogItem (commitId selector name subject : PyStr) :
    Except PyErr ReflogRow :=
  match splitFirst (pystr ": ") (strip subject) with
  | none => .error .valueError
  | some (operation, subj) => .ok ⟨commitId, selector, name, operation, subj⟩

/-- The `logEntry` dictionary of `__processBuffer`; only the four keys of
the format template are ever stored. -/
structure LogEntry where
  commit : Option PyStr := none
  selector : Option PyStr := none
  name : Option PyStr := none
  subject : Option PyStr := none
deriving DecidableEq

/-- `len(logEntry)`: the number of keys present. -/
def LogEntry.size (e : LogEntry) : Nat :=
  (if e.commit.isSome then 1 else 0) + (if e.selector.isSome then 1 else 0) +
    (if e.name.isSome then 1 else 0) + (if e.subject.isSome then 1 else 0)

/-- `key in ("commit", "selector", "name", "subject")`. -/
def isReflogKey (k : PyStr) : Bool :=
  k = pystr "commit" || k = pystr "selector" || k = pystr "name" ||
    k = pystr "subject"

/-- `logEntry[key] = value` for a key of the format template. -/
def LogEntry.setKey (e : LogEntry) (key value : PyStr) : LogEntry :=
  if key = pystr "commit" then { e with commit := some value }
  else if key = pystr "selector" then { e with selector := some value }
  else if key = pystr "name" then { e with name := some value }
  else { e with subject := some value }

/-- `logEntry["commit"], logEntry["selector"], logEntry["name"],
logEntry["subject"]`; `KeyError` when one is missing. -/
def LogEntry.lookup4 (e : LogEntry) :
    Except PyErr (PyStr × PyStr × PyStr × PyStr) :=
  match e.commit, e.selector, e.name, e.subject with
  | some c, some s, some n, some sub => .ok (c, s, n, sub)
  | _, _, _, _ => .error .keyError

/-- The loop body of `GitReflogBrowserDialog.__processBuffer`, carrying the
`logEntry` binding (`none` until the first `recordstart` line, a `NameError`
if used before then).  Returns the tree rows inserted (in order) and the
first uncaught exception, if any; rows inserted before an exception stay
inserted. -/
def processBufferAux (st : Option LogEntry) :
    List PyStr → List ReflogRow × Option PyErr
  | [] => ([], none)
  | l :: ls =>
    let line := rstrip l
    if line = pystr "recordstart" then processBufferAux (some {}) ls
    else if line = pystr "recordend" then
      match st with
      | none => ([], some .nameError)
      | some e =>
        if 1 < e.size then
          match e.lookup4 with
          | .error err => ([], some err)
          | .ok (c, s, n, sub) =>
            match generateReflogItem c s n sub with
            | .error err => ([], some err)
            | .ok row =>
              let r := processBufferAux st ls
              (row :: r.1, r.2)
        else processBufferAux st ls
    else
      let kv :=
        match splitFirst (pystr "|") line with
        | some (k, v) => (k, v)
        | none => (([] : PyStr), line)
      if isReflogKey kv.1 then
        match st with
        | none => ([], some .nameError)
        | some e => processBufferAux (some (e.setKey kv.1 (strip kv.2))) ls
      else processBufferAux st ls

/-- `GitReflogBrowserDialog.__processBuffer`, applied to the buffered
stdout lines. -/
def processBuffer (buf : List PyStr) : List ReflogRow × Option PyErr :=
  processBufferAux none buf

/-- One record of `git log --walk-reflogs` output under the dialog's
`--format` template (`__formatTemplate`): the four field values between a
`recordstart` and a `recordend` sentinel line. -/
structure ReflogRecord where
  commit : PyStr
  selector : PyStr
  name : PyStr
  subject : PyStr
deriving DecidableEq

/-- The buffer lines one record contributes, following the format
template. -/
def recordLines (r : ReflogRecord) : List PyStr :=
  [pystr "recordstart",
   pystr "commit|" ++ r.commit,
   pystr "selector|" ++ r.selector,
   pystr "name|" ++ r.name,
   pystr "subject|" ++ r.subject,
   pystr "recordend"]

/-- The whole buffered output for a list of records. -/
def bufOf (records : List ReflogRecord) : List PyStr :=
  (records.map recordLines).flatten

/-- The tree row a record should produce according to the spec: commit id,
selector and name as parsed (stripped), operation and subject from
splitting the record's subject field at its first `": "`. -/
def rowOf (r : ReflogRecord) : ReflogRow :=
  let sp := (splitFirst (pystr ": ") (strip r.subject)).getD ([], [])
  ⟨strip r.commit, strip r.selector, strip r.name, sp.1, sp.2⟩

/-- The `logEntry` contents a full format-template record leaves behind. -/
def entryOf (r : ReflogRecord) : LogEntry :=
  ⟨some (strip r.commit), some (strip r.selector), some (strip r.name),
   some (strip r.subject)⟩

/-! ## `HgBookmarksListDialog` — bookmarks output line parsing

From `Plugins/VcsPlugins/vcsMercurial/HgBookmarksListDialog.py`. -/

/-- `li[-1][0] in "1234567890"`. -/
def inDigitLiteral (c : Char) : Bool := (pystr "1234567890").contains c

/-- Python `str.isdecimal` on one character.  (Python also accepts non-ASCII
decimal digits; those never occur in the inputs this code receives.) -/
def pyIsDecimal (c : Char) : Bool := c.isDigit

/-- Digits of an integer literal after the first: digits, with single
underscores allowed between digits (Python 3.6+ `int()` grammar). -/
def intTail : PyStr → Bool
  | [] => true
  | c :: rest =>
    if c = '_' then
      match rest with
      | [] => false
      | d :: rest2 => d.isDigit && intTail rest2
    else c.isDigit && intTail rest

/-- Whether a string is a valid unsigned body for Python `int()`. -/
def intBodyOk : PyStr → Bool
  | [] => false
  | c :: rest => c.isDigit && intTail rest

/-- Numeric value of a digit string. -/
def digitsVal (s : PyStr) : Nat :=
  s.foldl (fun acc c => acc * 10 + (c.toNat - 48)) 0

/-- Python `int(s)`: strip whitespace, optional sign, digits with
underscores; `none` models the `ValueError`. -/
def pyInt (s : PyStr) : Option Int :=
  match strip s with
  | [] => none
  | c :: rest =>
    if c = '+' then
      if intBodyOk rest then
        some (digitsVal (rest.filter (fun d => d != '_'))) else none
    else if c = '-' then
      if intBodyOk rest then
        some (-(digitsVal (rest.filter (fun d => d != '_')) : Int)) else none
    else if intBodyOk (c :: rest) then
      some (digitsVal ((c :: rest).filter (fun d => d != '_'))) else none

/-- A row of the bookmarks tree: a bookmark entry (revision stored as an
integer), a plain message row, or a blank row (a `QTreeWidgetItem` that
was created but never populated because an exception followed) —
`__generateItem`'s possible outcomes. -/
inductive HgItem
  | bookmark (revision : Int) (changeset status name : PyStr)
  | message (text : PyStr)
  | blank
deriving DecidableEq

/-- `HgBookmarksListDialog.__generateItem`: the `QTreeWidgetItem` is
created (inserted) first; then `revision[0]` raises `IndexError` on an
empty revision, a decimal first character leads to `int(revision)`
(`ValueError` if invalid) and a four-column bookmark row, anything else
to a message row.  Returns the row as inserted and the exception, if
any. -/
def hgGenerateItem (revision changeset status name : PyStr) :
    HgItem × Option PyErr :=
  match revision with
  | [] => (.blank, some .indexError)
  | c :: _ =>
    if pyIsDecimal c then
      match pyInt revision with
      | none => (.blank, some .valueError)
      | some n => (.bookmark n changeset status name, none)
    else (.message revision, none)

/-- `HgBookmarksListDialog.__processOutputLine`: split the line on
whitespace (`li[-1]` raises `IndexError` on an empty split), split the last
token at its first `:` into revision and changeset (`ValueError` when `:`
is absent), drop it, treat a leading `*` token as status `current`
(`li[0]` raises `IndexError` when no token is left), join the rest as the
name, generate the item and append the name to the caller's bookmarks
list.  Returns the tree rows inserted by this call, the bookmarks list
afterwards, and the exception, if any (the name is appended only when no
exception was raised). -/
def hgProcessOutputLine (line : PyStr) (bookmarks : List PyStr) :
    List HgItem × List PyStr × Option PyErr :=
  let li := splitWs line
  match li.getLast? with
  | none => ([], bookmarks, some .indexError)
  | some lastTok =>
    match lastTok with
    | [] => ([], bookmarks, some .indexError)
    | c0 :: _ =>
      if inDigitLiteral c0 then
        match splitFirst (pystr ":") lastTok with
        | none => ([], bookmarks, some .valueError)
        | some (rev, changeset) =>
          match li.dropLast with
          | [] => ([], bookmarks, some .indexError)
          | t0 :: tRest =>
            let sr := if t0 = pystr "*" then (pystr "current", tRest)
                      else (pystr "", t0 :: tRest)
            let name := pyJoin (pystr " ") sr.2
            match hgGenerateItem rev changeset sr.1 name with
            | (itm, some e) => ([itm], bookmarks, some e)
            | (itm, none) => ([itm], bookmarks ++ [name], none)
      else ([], bookmarks, none)

/-- The joined bookmark name: the tokens before the last one, without a
leading `*` token. -/
def hgName (t0 : PyStr) (mid : List PyStr) : PyStr :=
  pyJoin (pystr " ") (if t0 = pystr "*" then mid else t0 :: mid)

-- Equality of modelled `Except` results is decidable.
deriving instance DecidableEq for Except

/-! ## `HgQueuesListGuardsDialog` — guards list construction

From `Plugins/VcsPlugins/vcsMercurial/QueuesExtension/HgQueuesListGuardsDialog.py`. -/

/-- The icon attached to a guards list item. -/
inductive GuardIcon
  | plus
  | minus
deriving DecidableEq

/-- The UI outcome of `on_patchSelector_activated`: the patch name label
text and the list items (text, optional icon). -/
structure GuardsUIState where
  patchNameLabel : PyStr
  items : List (PyStr × Option GuardIcon)
deriving DecidableEq

/-- One loop iteration of `on_patchSelector_activated`: `guard.startswith`
checks decide prefix stripping and icon; otherwise the text `Unguarded`
(`self.tr` modelled as the identity) with no icon. -/
def guardItem (g : PyStr) : PyStr × Option GuardIcon :=
  if (pystr "+").isPrefixOf g then (g.drop 1, some .plus)
  else if (pystr "-").isPrefixOf g then (g.drop 1, some .minus)
  else (pystr "Unguarded", none)

/-- `HgQueuesListGuardsDialog.on_patchSelector_activated` applied to the
raw `qguard` command output: the guards list is cleared and the label
emptied; a non-empty stripped output is split at its first `:`
(`ValueError` when absent, the unpacking fails) into the label text and
the guard tokens. -/
def onPatchSelectorActivated (rawOutput : PyStr) :
    Except PyErr GuardsUIState :=
  let output := strip rawOutput
  if output = [] then .ok ⟨[], []⟩
  else
    match splitFirst (pystr ":") output with
    | none => .error .valueError
    | some (patchName, guards) =>
      .ok ⟨patchName, (splitWs (strip guards)).map guardItem⟩

/-! ## `GitReflogBrowserDialog` — process shutdown and start failure -/

/-- Interactions with the `QProcess` (in program order). -/
inductive ProcEvent
  | terminate
  | scheduleKill (delayMs : Nat)
  | waitForFinished (timeoutMs : Nat)
deriving DecidableEq

/-- The process interactions of `GitReflogBrowserDialog.closeEvent`, given
whether the process is still running (`state() != QProcess.NotRunning`);
the widget bookkeeping around them is omitted. -/
def closeEventProcTrace (running : Bool) : List ProcEvent :=
  if running then
    [.terminate, .scheduleKill 2000, .waitForFinished 3000]
  else []

/-- The process interactions of `GitReflogBrowserDialog.__finish`, given
whether the process is still running; the cursor/button/input-group
bookkeeping around them is omitted. -/
def finishProcTrace (running : Bool) : List ProcEvent :=
  if running then
    [.terminate, .scheduleKill 2000, .waitForFinished 3000]
  else []

/-- The message of the modal critical dialog of `__getReflogEntries`:
`'The process {0} could not be started. ...'.format('git')`. -/
def procGenErrorMsg : PyStr :=
  pystr "The process git could not be started. Ensure, that it is in the search path."

/-- Observable outcome of one `__getReflogEntries` invocation together
with the signal deliveries that follow it. -/
structure ReflogFetchResult where
  inputGroupEnabled : Bool
  inputGroupVisible : Bool
  criticalDialog : Option PyStr
  rowsAdded : List ReflogRow
deriving DecidableEq

/-- `GitReflogBrowserDialog.__getReflogEntries` and the rest of the
invocation: the buffer is reset to `[]`; if `waitForStarted(5000)`
succeeds, stdout lines are buffered and `__procFinished` runs
`__processBuffer` over them; otherwise the input group is disabled and
hidden, the modal critical dialog is shown, the finished signal never
fires and the empty buffer contributes no rows. -/
def reflogFetchInvocation (procStarted : Bool) (stdoutLines : List PyStr) :
    ReflogFetchResult :=
  if procStarted then
    { inputGroupEnabled := true, inputGroupVisible := true,
      criticalDialog := none,
      rowsAdded := (processBuffer stdoutLines).1 }
  else
    { inputGroupEnabled := false, inputGroupVisible := false,
      criticalDialog := some procGenErrorMsg,
      rowsAdded := [] }

/-! ## Dialog refresh state (C7) -/

/-- The mutable widget state of `HgBookmarksListDialog`: the tree rows and
the caller-supplied bookmarks string list. -/
structure HgDialogState where
  tree : List HgItem
  bookmarks : List PyStr
deriving DecidableEq

/-- The parsing loop of `HgBookmarksListDialog.start`: process the output
lines in order, threading the bookmarks list; stop after a line when the
client reports cancellation (one flag per iteration), or at the first
uncaught exception (rows inserted so far remain). -/
def hgProcessLinesAux (bm : List PyStr) :
    List PyStr → List Bool → List HgItem × List PyStr × Option PyErr
  | [], _ => ([], bm, none)
  | l :: ls, cancels =>
    match hgProcessOutputLine l bm with
    | (items, bm2, some e) => (items, bm2, some e)
    | (items, bm2, none) =>
      if cancels.headD false then (items, bm2, none)
      else
        let r := hgProcessLinesAux bm2 ls cancels.tail
        (items ++ r.1, r.2.1, r.2.2)

/-- The bookmark row of `__finish` when the tree ended up empty. -/
def noBookmarksItem : HgItem := .message (pystr "no bookmarks defined")

/-- `HgBookmarksListDialog.start` followed by `__finish`: clear the tree
and empty the caller's list first; return early when no repository root is
found; otherwise parse the (split) command output, and — unless an
exception aborted everything — let `__finish` add the placeholder row when
the tree is still empty. -/
def hgStart (_st : HgDialogState) (repoFound : Bool) (out : PyStr)
    (cancels : List Bool) : HgDialogState × Option PyErr :=
  let st1 : HgDialogState := { tree := [], bookmarks := [] }
  if repoFound then
    let lines := if out = [] then [] else pySplitlines out
    let r := hgProcessLinesAux st1.bookmarks lines cancels
    let st2 : HgDialogState := { tree := st1.tree ++ r.1, bookmarks := r.2.1 }
    match r.2.2 with
    | some e => (st2, some e)
    | none =>
      if st2.tree = [] then
        ({ st2 with tree := st2.tree ++ [noBookmarksItem] }, none)
      else (st2, none)
  else (st1, none)

/-- `GitReflogBrowserDialog.start` followed by stdout buffering and
`__procFinished`: the log tree is cleared and the buffer reset before
fetching; the finished handler appends the rows parsed from the buffered
lines to the (cleared) tree. -/
def gitRefreshCycle (_initTree : List ReflogRow) (stdoutLines : List PyStr) :
    List ReflogRow × Option PyErr :=
  let cleared : List ReflogRow := []
  let r := processBuffer stdoutLines
  (cleared ++ r.1, r.2)

/-! ## `WebInspector` view registry and `PythonPage.save`

From `WebBrowser/WebInspector.py` and
`Preferences/ConfigurationPages/PythonPage.py`. -/

/-- `WebInspector.registerView`: no-op when the module list `_VIEWS` is
`None`, otherwise `_VIEWS.insert(0, view)`. -/
def registerView {α : Type} (views : Option (List α)) (v : α) :
    Option (List α) :=
  match views with
  | none => none
  | some l => some (v :: l)

/-- `WebInspector.unregisterView`: `_VIEWS.remove(view)` (first occurrence)
when present. -/
def unregisterView {α : Type} [DecidableEq α] (views : Option (List α))
    (v : α) : Option (List α) :=
  match views with
  | none => none
  | some l => some (if v ∈ l then l.erase v else l)

/-- `WebInspector.pushView`: remove the view when present, then insert it
at the front. -/
def pushView {α : Type} [DecidableEq α] (views : Option (List α)) (v : α) :
    Option (List α) :=
  match views with
  | none => none
  | some l => some (v :: (if v ∈ l then l.erase v else l))

/-- The system/debugger preferences `PythonPage.save` writes. -/
structure SystemPrefs where
  stringEncoding : PyStr
  ioEncoding : PyStr
  pythonExtensions : PyStr
  python3Extensions : PyStr
deriving DecidableEq

/-- `PythonPage.save`: an empty combo-box text is replaced by `utf-8`
before the encoding preference is stored; the extension edits are stored
unchanged. -/
def pythonPageSave (stringEncText ioEncText py2ExtText py3ExtText : PyStr)
    (prefs : SystemPrefs) : SystemPrefs :=
  let enc1 := if stringEncText = [] then pystr "utf-8" else stringEncText
  let enc2 := if ioEncText = [] then pystr "utf-8" else ioEncText
  { prefs with
    stringEncoding := enc1, ioEncoding := enc2,
    pythonExtensions := py2ExtText, python3Extensions := py3ExtText }

/-! ## `WebBrowserLanguagesDialog.httpString` — binary64 quality values

From `WebBrowser/WebBrowserLanguagesDialog.py`.  `qvalue` is a Python
float (IEEE binary64); the model computes with exact rational values and
rounds like binary64 round-to-nearest-even.  Rationals are carried as
unreduced fractions with positive denominators so that every operation is
kernel-computable (no gcd normalisation). -/

/-- An unreduced fraction; every constructor application below keeps the
denominator positive. -/
structure Frac where
  num : ℤ
  den : ℤ
deriving DecidableEq

/-- Embed an integer. -/
def Frac.ofInt (n : ℤ) : Frac := ⟨n, 1⟩

/-- Exact product. -/
def Frac.mul (a b : Frac) : Frac := ⟨a.num * b.num, a.den * b.den⟩

/-- Exact difference. -/
def Frac.sub (a b : Frac) : Frac :=
  ⟨a.num * b.den - b.num * a.den, a.den * b.den⟩

/-- `a < b` by cross-multiplication (positive denominators). -/
def Frac.lt (a b : Frac) : Bool := a.num * b.den < b.num * a.den

/-- `a ≤ b` by cross-multiplication (positive denominators). -/
def Frac.le (a b : Frac) : Bool := a.num * b.den ≤ b.num * a.den

/-- `⌊a⌋` (positive denominator). -/
def Frac.floor (a : Frac) : ℤ := a.num.fdiv a.den

/-- Fuel-driven `⌊log₂ n⌋` (0 for `n ≤ 1`); fuel `n` suffices. -/
def log2fuel : Nat → Nat → Nat
  | 0, _ => 0
  | fuel + 1, n => if n ≤ 1 then 0 else log2fuel fuel (n / 2) + 1

/-- `⌊log₂ n⌋` for `n ≥ 1`. -/
def log2floor (n : Nat) : Nat := log2fuel n n

/-- `2^k` as a fraction, for `k` of either sign. -/
def pow2 (k : ℤ) : Frac := if 0 ≤ k then ⟨2 ^ k.toNat, 1⟩ else ⟨1, 2 ^ (-k).toNat⟩

/-- Round to the nearest integer, ties to even (the IEEE-754 default and
what Python's float formatting uses). -/
def rhe (q : Frac) : ℤ :=
  let f := q.floor
  let r2 := 2 * (q.num - f * q.den)
  if r2 < q.den then f
  else if q.den < r2 then f + 1
  else if f % 2 = 0 then f else f + 1

/-- For `q > 0`, the exponent `e` with `2^e ≤ q < 2^(e+1)` (the fuel log
gives a candidate within one; the comparisons settle it). -/
def qexp (q : Frac) : ℤ :=
  let c : ℤ := (log2floor q.num.toNat : ℤ) - (log2floor q.den.toNat : ℤ)
  if (pow2 (c + 1)).le q then c + 1
  else if (pow2 c).le q then c
  else c - 1

/-- Round a positive rational to the nearest binary64 value (53-bit
significand, round-to-nearest-even; all values in this file stay inside
the normal range, so no subnormal or overflow handling is needed). -/
def fl64pos (q : Frac) : Frac :=
  let e := qexp q
  (Frac.ofInt (rhe (q.mul (pow2 (52 - e))))).mul (pow2 (e - 52))

/-- Round any rational to the nearest binary64 value. -/
def fl64 (q : Frac) : Frac :=
  if (0 : ℤ) < q.num then fl64pos q
  else if q.num < 0 then
    let p := fl64pos ⟨-q.num, q.den⟩
    ⟨-p.num, p.den⟩
  else Frac.ofInt 0

/-- The binary64 value of the literal `0.1`: `3602879701896397 / 2^55`. -/
def d01 : Frac := ⟨3602879701896397, 36028797018963968⟩

/-- Binary64 subtraction of exactly represented operands: subtract
exactly, then round. -/
def floatSub (x y : Frac) : Frac := fl64 (x.sub y)

/-- One end-of-iteration update of `qvalue`:
`if qvalue > 0.1: qvalue -= 0.1`. -/
def qstep (q : Frac) : Frac := if d01.lt q then floatSub q d01 else q

/-- The value of `qvalue` at the start of iteration `i` (starts at `1.0`,
updated once per language). -/
def qseq : Nat → Frac
  | 0 => Frac.ofInt 1
  | n + 1 => qstep (qseq n)

/-- Python `format(v, '.1f')` for `v ≥ 0`: correctly rounded to one
fractional digit, ties to even. -/
def fmt1f (v : Frac) : PyStr :=
  let n := (rhe (v.mul (Frac.ofInt 10))).toNat
  Nat.toDigits 10 (n / 10) ++ ('.' :: Nat.toDigits 10 (n % 10))

/-- Python `s.find(c)` for a single-character needle: first index or
`-1`. -/
def pyFindChar (s : PyStr) (c : Char) : ℤ :=
  match s.findIdx? (fun d => d == c) with
  | some i => (i : ℤ)
  | none => -1

/-- Python slicing `s[i:j]` with negative-index wrapping and clamping. -/
def pySlice (s : PyStr) (i j : ℤ) : PyStr :=
  let n : ℤ := s.length
  let i2 := if i < 0 then max (n + i) 0 else min i n
  let j2 := if j < 0 then max (n + j) 0 else min j n
  (s.take j2.toNat).drop i2.toNat

/-- `language[leftBracket + 1:rightBracket]` with
`leftBracket = language.find('[')` and `rightBracket = language.find(']')`. -/
def extractTag (language : PyStr) : PyStr :=
  let lb := pyFindChar language '['
  let rb := pyFindChar language ']'
  pySlice language (lb + 1) rb

/-- The loop of `WebBrowserLanguagesDialog.httpString`: the first entry is
the bare tag (`processed` still empty), later entries get
`";q=" + format(qvalue, '.1f')`; `qvalue` is decremented by binary64 `0.1`
while it exceeds binary64 `0.1`. -/
def httpLoop : List PyStr → List PyStr → Frac → List PyStr
  | [], processed, _ => processed
  | language :: rest, processed, qvalue =>
    let tag := extractTag language
    let processed2 :=
      if processed = [] then processed ++ [tag]
      else processed ++ [tag ++ pystr ";q=" ++ fmt1f qvalue]
    httpLoop rest processed2 (if d01.lt qvalue then floatSub qvalue d01 else qvalue)

/-- `WebBrowserLanguagesDialog.httpString`. -/
def httpString (languages : List PyStr) : PyStr :=
  pyJoin (pystr ", ") (httpLoop languages [] (Frac.ofInt 1))

/-- The entry the spec predicts at 0-based position `i`. -/
def mkEntry (i : Nat) (language : PyStr) : PyStr :=
  if i = 0 then extractTag language
  else extractTag language ++ pystr ";q=" ++ fmt1f (qseq i)

/-- The predicted entries from position `i` on. -/
def mkEntries : Nat → List PyStr → List PyStr
  | _, [] => []
  | i, l :: ls => mkEntry i l :: mkEntries (i + 1) ls

/-! ### String lemmas -/
lemma dropWhile_idem (p : Char → Bool) (l : List Char) :
    (l.dropWhile p).dropWhile p = l.dropWhile p := by
  induction l with
  | nil => simp
  | cons c t ih =>
    by_cases h : p c
    · simp [List.dropWhile_cons, h, ih]
    · simp [List.dropWhile_cons, h]

lemma rstrip_idem (s : PyStr) : rstrip (rstrip s) = rstrip s := by
  simp [rstrip, List.reverse_reverse, dropWhile_idem]

lemma lstrip_idem (s : PyStr) : lstrip (lstrip s) = lstrip s := by
  simp [lstrip, dropWhile_idem]

lemma dropWhile_eq_self_of_prefix (p : Char → Bool) (w w' : List Char)
    (hw : w.dropWhile p = w) (hp : w' <+: w) : w'.dropWhile p = w' := by
  cases w' with
  | nil => simp
  | cons a t =>
    obtain ⟨rest, hrest⟩ := hp
    have ha : ¬ p a := by
      intro hpa
      rw [← hrest] at hw
      rw [List.cons_append, List.dropWhile_cons_of_pos hpa] at hw
      have hlen := congrArg List.length hw
      rw [List.length_cons] at hlen
      have le := (List.dropWhile_sublist (l := t ++ rest) (p := p)).length_le
      omega
    exact List.dropWhile_cons_of_neg ha

lemma rstrip_lstrip_of_fix (u : PyStr) (h : rstrip u = u) :
    rstrip (lstrip u) = lstrip u := by
  have hsuf : lstrip u <:+ u := List.dropWhile_suffix _
  have hpre : (lstrip u).reverse <+: u.reverse := by
    obtain ⟨t, ht⟩ := hsuf
    exact ⟨t.reverse, by rw [← List.reverse_append, ht]⟩
  have hu : u.reverse.dropWhile pyIsSpace = u.reverse := by
    have := congrArg List.reverse h
    simpa [rstrip] using this
  have := dropWhile_eq_self_of_prefix pyIsSpace _ _ hu hpre
  simp [rstrip, this]

lemma strip_rstrip (s : PyStr) : strip (rstrip s) = strip s := by
  simp [strip, rstrip_idem]

lemma strip_strip (s : PyStr) : strip (strip s) = strip s := by
  show lstrip (rstrip (lstrip (rstrip s))) = lstrip (rstrip s)
  rw [rstrip_lstrip_of_fix _ (rstrip_idem s), lstrip_idem]

lemma rstrip_append_of_fix (a b : PyStr) (h : rstrip a = a) :
    rstrip (a ++ b) = a ++ rstrip b := by
  have hu : a.reverse.dropWhile pyIsSpace = a.reverse := by
    have := congrArg List.reverse h
    simpa [rstrip] using this
  rw [rstrip, List.reverse_append, List.dropWhile_append]
  by_cases hb : (b.reverse.dropWhile pyIsSpace).isEmpty
  · rw [if_pos hb, hu]
    have hb' : b.reverse.dropWhile pyIsSpace = [] := by
      simpa [List.isEmpty_iff] using hb
    simp [rstrip, hb']
  · rw [if_neg hb]
    simp [rstrip, List.reverse_append]

/-! ### `__processBuffer` lemmas and the C1 theorem -/

lemma sf_commit (c : PyStr) :
    splitFirst (pystr "|") (pystr "commit|" ++ c) = some (pystr "commit", c) := by
  have h : pystr "commit|" = ['c','o','m','m','i','t','|'] := rfl
  rw [h]
  simp +decide [splitFirst, List.isPrefixOf, pystr]

lemma sf_selector (c : PyStr) :
    splitFirst (pystr "|") (pystr "selector|" ++ c) =
      some (pystr "selector", c) := by
  have h : pystr "selector|" = ['s','e','l','e','c','t','o','r','|'] := rfl
  rw [h]
  simp +decide [splitFirst, List.isPrefixOf, pystr]

lemma sf_name (c : PyStr) :
    splitFirst (pystr "|") (pystr "name|" ++ c) = some (pystr "name", c) := by
  have h : pystr "name|" = ['n','a','m','e','|'] := rfl
  rw [h]
  simp +decide [splitFirst, List.isPrefixOf, pystr]

lemma sf_subject (c : PyStr) :
    splitFirst (pystr "|") (pystr "subject|" ++ c) =
      some (pystr "subject", c) := by
  have h : pystr "subject|" = ['s','u','b','j','e','c','t','|'] := rfl
  rw [h]
  simp +decide [splitFirst, List.isPrefixOf, pystr]

lemma pb_start (st : Option LogEntry) (ls : List PyStr) :
    processBufferAux st (pystr "recordstart" :: ls) =
      processBufferAux (some {}) ls := by
  have h1 : rstrip (pystr "recordstart") = pystr "recordstart" := by decide
  simp only [processBufferAux, h1]
  simp

lemma pb_key_commit (e : LogEntry) (v : PyStr) (ls : List PyStr) :
    processBufferAux (some e) ((pystr "commit|" ++ v) :: ls) =
      processBufferAux (some { e with commit := some (strip v) }) ls := by
  have hr : rstrip (pystr "commit|" ++ v) = pystr "commit|" ++ rstrip v :=
    rstrip_append_of_fix _ _ (by decide)
  have hne1 : pystr "commit|" ++ rstrip v ≠ pystr "recordstart" := by
    intro h
    have h' : 'c' :: (pystr "ommit|" ++ rstrip v) = 'r' :: pystr "ecordstart" := h
    injection h' with h1 _
    exact absurd h1 (by decide)
  have hne2 : pystr "commit|" ++ rstrip v ≠ pystr "recordend" := by
    intro h
    have h' : 'c' :: (pystr "ommit|" ++ rstrip v) = 'r' :: pystr "ecordend" := h
    injection h' with h1 _
    exact absurd h1 (by decide)
  simp only [processBufferAux, hr, if_neg hne1, if_neg hne2, sf_commit]
  simp +decide [isReflogKey, LogEntry.setKey, strip_rstrip]

lemma pb_key_selector (e : LogEntry) (v : PyStr) (ls : List PyStr) :
    processBufferAux (some e) ((pystr "selector|" ++ v) :: ls) =
      processBufferAux (some { e with selector := some (strip v) }) ls := by
  have hr : rstrip (pystr "selector|" ++ v) = pystr "selector|" ++ rstrip v :=
    rstrip_append_of_fix _ _ (by decide)
  have hne1 : pystr "selector|" ++ rstrip v ≠ pystr "recordstart" := by
    intro h
    have h' : 's' :: (pystr "elector|" ++ rstrip v) = 'r' :: pystr "ecordstart" := h
    injection h' with h1 _
    exact absurd h1 (by decide)
  have hne2 : pystr "selector|" ++ rstrip v ≠ pystr "recordend" := by
    intro h
    have h' : 's' :: (pystr "elector|" ++ rstrip v) = 'r' :: pystr "ecordend" := h
    injection h' with h1 _
    exact absurd h1 (by decide)
  simp only [processBufferAux, hr, if_neg hne1, if_neg hne2, sf_selector]
  simp +decide [isReflogKey, LogEntry.setKey, strip_rstrip]

lemma pb_key_name (e : LogEntry) (v : PyStr) (ls : List PyStr) :
    processBufferAux (some e) ((pystr "name|" ++ v) :: ls) =
      processBufferAux (some { e with name := some (strip v) }) ls := by
  have hr : rstrip (pystr "name|" ++ v) = pystr "name|" ++ rstrip v :=
    rstrip_append_of_fix _ _ (by decide)
  have hne1 : pystr "name|" ++ rstrip v ≠ pystr "recordstart" := by
    intro h
    have h' : 'n' :: (pystr "ame|" ++ rstrip v) = 'r' :: pystr "ecordstart" := h
    injection h' with h1 _
    exact absurd h1 (by decide)
  have hne2 : pystr "name|" ++ rstrip v ≠ pystr "recordend" := by
    intro h
    have h' : 'n' :: (pystr "ame|" ++ rstrip v) = 'r' :: pystr "ecordend" := h
    injection h' with h1 _
    exact absurd h1 (by decide)
  simp only [processBufferAux, hr, if_neg hne1, if_neg hne2, sf_name]
  simp +decide [isReflogKey, LogEntry.setKey, strip_rstrip]

lemma pb_key_subject (e : LogEntry) (v : PyStr) (ls : List PyStr) :
    processBufferAux (some e) ((pystr "subject|" ++ v) :: ls) =
      processBufferAux (some { e with subject := some (strip v) }) ls := by
  have hr : rstrip (pystr "subject|" ++ v) = pystr "subject|" ++ rstrip v :=
    rstrip_append_of_fix _ _ (by decide)
  have hne1 : pystr "subject|" ++ rstrip v ≠ pystr "recordstart" := by
    intro h
    have h' : 's' :: (pystr "ubject|" ++ rstrip v) = 'r' :: pystr "ecordstart" := h
    injection h' with h1 _
    exact absurd h1 (by decide)
  have hne2 : pystr "subject|" ++ rstrip v ≠ pystr "recordend" := by
    intro h
    have h' : 's' :: (pystr "ubject|" ++ rstrip v) = 'r' :: pystr "ecordend" := h
    injection h' with h1 _
    exact absurd h1 (by decide)
  simp only [processBufferAux, hr, if_neg hne1, if_neg hne2, sf_subject]
  simp +decide [isReflogKey, LogEntry.setKey, strip_rstrip]

lemma pb_end (c s n sub : PyStr) (ls : List PyStr)
    (hc : containsSub (pystr ": ") (strip sub) = true) :
    processBufferAux (some ⟨some c, some s, some n, some sub⟩)
        (pystr "recordend" :: ls) =
      (⟨c, s, n, ((splitFirst (pystr ": ") (strip sub)).getD ([], [])).1,
          ((splitFirst (pystr ": ") (strip sub)).getD ([], [])).2⟩ ::
        (processBufferAux (some ⟨some c, some s, some n, some sub⟩) ls).1,
       (processBufferAux (some ⟨some c, some s, some n, some sub⟩) ls).2) := by
  rcases hsp : splitFirst (pystr ": ") (strip sub) with _ | ⟨op, rest⟩
  · rw [containsSub, hsp] at hc
    simp at hc
  · have hrs : rstrip (pystr "recordend") = pystr "recordend" := by decide
    simp only [processBufferAux, hrs]
    simp +decide [LogEntry.size, LogEntry.lookup4, generateReflogItem, hsp]

lemma pb_record (st : Option LogEntry) (r : ReflogRecord) (rest : List PyStr)
    (hc : containsSub (pystr ": ") (strip r.subject) = true) :
    processBufferAux st (recordLines r ++ rest) =
      (rowOf r :: (processBufferAux (some (entryOf r)) rest).1,
       (processBufferAux (some (entryOf r)) rest).2) := by
  have hc' : containsSub (pystr ": ") (strip (strip r.subject)) = true := by
    rwa [strip_strip]
  rw [recordLines, List.cons_append, List.cons_append, List.cons_append,
    List.cons_append, List.cons_append, List.cons_append, List.nil_append]
  rw [pb_start, pb_key_commit, pb_key_selector, pb_key_name, pb_key_subject]
  rw [pb_end _ _ _ _ _ hc']
  simp [rowOf, entryOf, strip_strip]

lemma pb_records_aux :
    ∀ (records : List ReflogRecord),
      (∀ r ∈ records, containsSub (pystr ": ") (strip r.subject) = true) →
      ∀ st, processBufferAux st (bufOf records) = (records.map rowOf, none)
  | [], _, st => by simp [bufOf, processBufferAux]
  | r :: rs, h, st => by
    rw [show bufOf (r :: rs) = recordLines r ++ bufOf rs from by simp [bufOf]]
    rw [pb_record st r (bufOf rs) (h r (by simp))]
    rw [pb_records_aux rs (fun x hx => h x (by simp [hx])) (some (entryOf r))]
    simp

/-- C1: for every buffered reflog output made of records in the dialog's
format-template shape (delimited by `recordstart`/`recordend` sentinel
lines, inner lines `key|value` for the keys commit, selector, name,
subject) whose subject value contains the separator `": "`, processing the
buffer raises nothing and inserts exactly one tree row per record, with
columns commit id, selector, name, operation, subject, where operation and
subject come from splitting the record's subject field at its first
`": "`. -/
theorem reflog_one_row_per_record (records : List ReflogRecord)
    (h : ∀ r ∈ records, containsSub (pystr ": ") (strip r.subject) = true) :
    processBuffer (bufOf records) = (records.map rowOf, none) ∧
      (processBuffer (bufOf records)).1.length = records.length := by
  have H := pb_records_aux records h none
  exact ⟨H, by rw [processBuffer, H]; simp⟩

theorem reflog_one_row_per_record_witness :
    (∀ r ∈ [(⟨pystr "abc", pystr "HEAD@{0}", pystr "Bob",
        pystr "commit: initial commit"⟩ : ReflogRecord)],
      containsSub (pystr ": ") (strip r.subject) = true) ∧
    processBuffer (bufOf [⟨pystr "abc", pystr "HEAD@{0}", pystr "Bob",
        pystr "commit: initial commit"⟩]) =
      ([⟨pystr "abc", pystr "HEAD@{0}", pystr "Bob", pystr "commit",
        pystr "initial commit"⟩], none) :=
  ⟨by decide, by
    have := (reflog_one_row_per_record
      [⟨pystr "abc", pystr "HEAD@{0}", pystr "Bob",
        pystr "commit: initial commit"⟩] (by decide)).1
    rw [this]
    decide⟩

/-! ### `HgBookmarksListDialog` lemmas and the C2/C3 theorems -/

lemma inDigit_cases (c : Char) (h : inDigitLiteral c = true) :
    c.isDigit = true ∧ c ≠ '_' ∧ c ≠ '+' ∧ c ≠ '-' ∧ pyIsSpace c = false := by
  have hmem : c = '1' ∨ c = '2' ∨ c = '3' ∨ c = '4' ∨ c = '5' ∨ c = '6' ∨
      c = '7' ∨ c = '8' ∨ c = '9' ∨ c = '0' := by
    have : c ∈ (['1','2','3','4','5','6','7','8','9','0'] : List Char) := by
      simpa [inDigitLiteral, pystr] using h
    simpa [List.mem_cons] using this
  rcases hmem with rfl | rfl | rfl | rfl | rfl | rfl | rfl | rfl | rfl | rfl <;>
    exact ⟨by decide, by decide, by decide, by decide, by decide⟩

lemma dropWhile_eq_self_of_all (p : Char → Bool) (l : List Char)
    (h : ∀ c ∈ l, p c = false) : l.dropWhile p = l := by
  cases l with
  | nil => simp
  | cons a t =>
    exact List.dropWhile_cons_of_neg (by simp [h a (by simp)])

lemma strip_of_no_space (s : PyStr) (h : ∀ c ∈ s, pyIsSpace c = false) :
    strip s = s := by
  have hr : rstrip s = s := by
    rw [rstrip, dropWhile_eq_self_of_all _ _ (fun c hc => h c (by simpa using hc)),
      List.reverse_reverse]
  rw [strip, hr, lstrip, dropWhile_eq_self_of_all _ _ h]

lemma intTail_of_digits : ∀ s : PyStr, (∀ c ∈ s, c.isDigit = true ∧ c ≠ '_') →
    intTail s = true
  | [], _ => rfl
  | c :: rest, h => by
    have hc := h c (by simp)
    rw [intTail.eq_def]
    simp [hc.1, hc.2, intTail_of_digits rest (fun d hd => h d (by simp [hd]))]

lemma pyInt_digits (s : PyStr) (hne : s ≠ [])
    (h : ∀ c ∈ s, inDigitLiteral c = true) :
    pyInt s = some ((digitsVal s : Int)) := by
  have hall : ∀ c ∈ s, c.isDigit = true ∧ c ≠ '_' ∧ c ≠ '+' ∧ c ≠ '-' ∧
      pyIsSpace c = false := fun c hc => inDigit_cases c (h c hc)
  have hstrip : strip s = s := strip_of_no_space s (fun c hc => (hall c hc).2.2.2.2)
  cases s with
  | nil => exact absurd rfl hne
  | cons c rest =>
    have hc := hall c (by simp)
    simp only [pyInt, hstrip]
    rw [if_neg hc.2.2.1, if_neg hc.2.2.2.1]
    have hbody : intBodyOk (c :: rest) = true := by
      rw [intBodyOk, hc.1]
      simp [intTail_of_digits rest (fun d hd => ⟨(hall d (by simp [hd])).1,
        (hall d (by simp [hd])).2.1⟩)]
    rw [hbody]
    have hfil : (c :: rest).filter (fun d => d != '_') = c :: rest := by
      rw [List.filter_eq_self]
      intro a ha
      simp [(hall a ha).2.1]
    simp [hfil]

lemma splitFirst_eq_append :
    ∀ (sep s a b : PyStr), splitFirst sep s = some (a, b) → s = a ++ sep ++ b
  | sep, [], a, b => by simp [splitFirst]
  | sep, c :: rest, a, b => by
    rw [splitFirst]
    by_cases hp : sep.isPrefixOf (c :: rest)
    · rw [if_pos hp]
      intro h
      obtain ⟨ha, hb⟩ := Prod.mk.injEq .. ▸ (Option.some.injEq _ _ ▸ h)
      obtain ⟨t, ht⟩ := (List.isPrefixOf_iff_prefix.mp hp)
      subst ha
      rw [← hb, ← ht, List.nil_append, List.drop_left]
    · rw [if_neg hp]
      rcases hrec : splitFirst sep rest with _ | ⟨a', b'⟩
      · simp
      · simp only [Option.some.injEq, Prod.mk.injEq]
        rintro ⟨rfl, rfl⟩
        have := splitFirst_eq_append sep rest a' b' hrec
        simp [this]

/-- C2, counterexample: the claim that dialog parsing never raises is
false — the reflog record builder raises `ValueError` on a subject lacking
`": "` (e.g. the bare subject `checkout`), and the Mercurial bookmarks
line parser raises `IndexError` on an empty or whitespace-only line. -/
theorem parsers_never_raise_counterexample :
    generateReflogItem (pystr "9fa62b5") (pystr "HEAD@{5}") (pystr "Bob")
        (pystr "checkout") = .error .valueError ∧
    hgProcessOutputLine (pystr "") [] = ([], [], some .indexError) ∧
    hgProcessOutputLine (pystr "   ") [] = ([], [], some .indexError) := by
  decide

/-- C3, counterexample: the claim fails on lines whose last token starts
with a digit and contains `:`.  A single-token line `5:abc` raises
`IndexError` (`li[0]` after `del li[-1]` on an empty list) instead of
inserting a row, and `main 5x:abc` raises `ValueError` (`int("5x")`)
instead of inserting a row. -/
theorem hg_bookmark_line_counterexample :
    hgProcessOutputLine (pystr "5:abc") [] = ([], [], some .indexError) ∧
    hgProcessOutputLine (pystr "main 5x:abc") [] =
      ([.blank], [], some .valueError) := by
  decide

/-- C2, amended: a buffered reflog line that is neither sentinel nor a
`key|value` line with a known key is silently skipped (the `ValueError`
of the `line.split("|", 1)` unpacking is caught and the key defaults to
empty); but the reflog record builder raises `ValueError` on a subject
field lacking the separator `": "`, and the Mercurial bookmarks line
parser raises `IndexError` on a line with no whitespace-delimited tokens
(empty or whitespace-only). -/
theorem parser_malformed_line_handling :
    (∀ (e : LogEntry) (l : PyStr) (ls : List PyStr),
        rstrip l ≠ pystr "recordstart" → rstrip l ≠ pystr "recordend" →
        isReflogKey ((splitFirst (pystr "|") (rstrip l)).getD
          ([], rstrip l)).1 = false →
        processBufferAux (some e) (l :: ls) = processBufferAux (some e) ls) ∧
    (∀ commitId selector name subject : PyStr,
        containsSub (pystr ": ") (strip subject) = false →
        generateReflogItem commitId selector name subject =
          .error .valueError) ∧
    (∀ (line : PyStr) (bm : List PyStr), splitWs line = [] →
        hgProcessOutputLine line bm = ([], bm, some .indexError)) := by
  refine ⟨?_, ?_, ?_⟩
  · intro e l ls h1 h2 h3
    simp only [processBufferAux]
    rw [if_neg h1, if_neg h2]
    rcases hsp : splitFirst (pystr "|") (rstrip l) with _ | ⟨k, v⟩
    · rw [hsp] at h3
      simp only [hsp]
      simp +decide [isReflogKey]
    · rw [hsp] at h3
      simp only [Option.getD_some] at h3
      simp only [hsp]
      simp [h3]
  · intro commitId selector name subject h
    rw [containsSub] at h
    rcases hsp : splitFirst (pystr ": ") (strip subject) with _ | p
    · rw [generateReflogItem, hsp]
    · rw [hsp] at h
      simp at h
  · intro line bm h
    simp only [hgProcessOutputLine, h]
    simp

/-- C3, amended: for every Mercurial bookmarks output line with at least
two whitespace-delimited tokens whose last token splits at its first `:`
into an all-digit revision and a changeset id, the parser inserts exactly
one row (revision value, changeset, status `current` iff the first token
is `*`, name the space-join of the remaining tokens) and appends the name
to the caller-supplied bookmarks list; a line whose last token does not
start with a digit produces no row and no list entry. -/
theorem hg_bookmark_line_inserts_row :
    (∀ (line : PyStr) (bm : List PyStr) (t0 lastTok rev cs : PyStr)
        (mid : List PyStr),
        splitWs line = t0 :: mid ++ [lastTok] →
        splitFirst (pystr ":") lastTok = some (rev, cs) →
        rev ≠ [] → (∀ c ∈ rev, inDigitLiteral c = true) →
        hgProcessOutputLine line bm =
          ([.bookmark (digitsVal rev) cs
            (if t0 = pystr "*" then pystr "current" else pystr "")
            (hgName t0 mid)], bm ++ [hgName t0 mid], none)) ∧
    (∀ (line : PyStr) (bm : List PyStr) (c0 : Char) (tokRest : PyStr),
        (splitWs line).getLast? = some (c0 :: tokRest) →
        inDigitLiteral c0 = false →
        hgProcessOutputLine line bm = ([], bm, none)) := by
  constructor
  case right =>
    intro line bm c0 tokRest hlast hnd
    simp only [hgProcessOutputLine, hlast]
    simp [hnd]
  intro line bm t0 lastTok rev cs mid htoks hsplit hrev hdig
  obtain ⟨c0, revRest, rfl⟩ : ∃ c0 r, rev = c0 :: r := by
    cases rev with
    | nil => exact absurd rfl hrev
    | cons a b => exact ⟨a, b, rfl⟩
  have hc0 := inDigit_cases c0 (hdig c0 (by simp))
  have hlast : lastTok = (c0 :: revRest) ++ pystr ":" ++ cs :=
    splitFirst_eq_append _ _ _ _ hsplit
  have hgetLast : (splitWs line).getLast? = some lastTok := by
    rw [htoks, show t0 :: mid ++ [lastTok] = (t0 :: mid) ++ [lastTok] from rfl]
    exact List.getLast?_concat _
  have hdrop : (splitWs line).dropLast = t0 :: mid := by
    rw [htoks, show t0 :: mid ++ [lastTok] = (t0 :: mid) ++ [lastTok] from rfl]
    exact List.dropLast_concat
  subst hlast
  simp only [List.cons_append, List.append_assoc] at hsplit ⊢
  simp only [hgProcessOutputLine, hgetLast, hdrop, List.cons_append]
  rw [if_pos (hdig c0 (by simp))]
  by_cases ht : t0 = pystr "*"
  · have hgen : hgGenerateItem (c0 :: revRest) cs (pystr "current")
        (pyJoin (pystr " ") mid) =
        (.bookmark (digitsVal (c0 :: revRest)) cs (pystr "current")
          (pyJoin (pystr " ") mid), none) := by
      rw [hgGenerateItem, pyIsDecimal, if_pos hc0.1,
        pyInt_digits (c0 :: revRest) (by simp) hdig]
    simp [ht, hsplit, hgen, hgName]
  · have hgen : hgGenerateItem (c0 :: revRest) cs (pystr "")
        (pyJoin (pystr " ") (t0 :: mid)) =
        (.bookmark (digitsVal (c0 :: revRest)) cs (pystr "")
          (pyJoin (pystr " ") (t0 :: mid)), none) := by
      rw [hgGenerateItem, pyIsDecimal, if_pos hc0.1,
        pyInt_digits (c0 :: revRest) (by simp) hdig]
    simp [ht, hsplit, hgen, hgName]

/-- Witness for `parser_malformed_line_handling` at concrete inputs. -/
theorem parser_malformed_line_handling_witness :
    processBufferAux (some {}) [pystr "garbage line", pystr "recordend"] =
        processBufferAux (some {}) [pystr "recordend"] ∧
    generateReflogItem (pystr "a1b2") (pystr "HEAD@{1}") (pystr "Ann")
        (pystr "clone") = .error .valueError ∧
    hgProcessOutputLine (pystr " ") [] = ([], [], some .indexError) :=
  ⟨parser_malformed_line_handling.1 {} (pystr "garbage line") [pystr "recordend"]
      (by decide) (by decide) (by decide),
   parser_malformed_line_handling.2.1 (pystr "a1b2") (pystr "HEAD@{1}") (pystr "Ann")
      (pystr "clone") (by decide),
   parser_malformed_line_handling.2.2 (pystr " ") [] (by decide)⟩

/-- Witness for `hg_bookmark_line_inserts_row` at a concrete line. -/
theorem hg_bookmark_line_inserts_row_witness :
    (splitWs (pystr "* main 12:0252dd8") =
        pystr "*" :: [pystr "main"] ++ [pystr "12:0252dd8"] ∧
      hgProcessOutputLine (pystr "* main 12:0252dd8") [] =
        ([.bookmark (digitsVal (pystr "12")) (pystr "0252dd8")
          (if pystr "*" = pystr "*" then pystr "current" else pystr "")
          (hgName (pystr "*") [pystr "main"])],
          [] ++ [hgName (pystr "*") [pystr "main"]], none)) ∧
    hgProcessOutputLine (pystr "no bookmarks defined") [] = ([], [], none) :=
  ⟨⟨by decide,
    hg_bookmark_line_inserts_row.1 (pystr "* main 12:0252dd8") [] (pystr "*")
      (pystr "12:0252dd8") (pystr "12") (pystr "0252dd8") [pystr "main"]
      (by decide) (by decide) (by decide) (by decide)⟩,
   hg_bookmark_line_inserts_row.2 (pystr "no bookmarks defined") [] 'd'
      (pystr "efined") (by decide) (by decide)⟩

/-! ### C4-C7 theorems -/

/-- C4: for every non-empty `qguard` response containing `:`, the guards
dialog sets the patch-name label to the text before the first `:` and adds
exactly one list item per whitespace-delimited guard token after it; a
token starting with `+` is shown without the prefix with a plus icon, one
starting with `-` without the prefix with a minus icon, and any other
token as the text `Unguarded` with no icon. -/
theorem guards_dialog_from_response :
    (∀ (raw patchName guards : PyStr),
        strip raw ≠ [] →
        splitFirst (pystr ":") (strip raw) = some (patchName, guards) →
        onPatchSelectorActivated raw =
          .ok ⟨patchName, (splitWs (strip guards)).map guardItem⟩ ∧
        ((splitWs (strip guards)).map guardItem).length =
          (splitWs (strip guards)).length) ∧
    (∀ t : PyStr, guardItem ('+' :: t) = (t, some .plus) ∧
        guardItem ('-' :: t) = (t, some .minus)) ∧
    (∀ (c : Char) (t : PyStr), c ≠ '+' → c ≠ '-' →
        guardItem (c :: t) = (pystr "Unguarded", none)) := by
  refine ⟨?_, ?_, ?_⟩
  · intro raw pn g hne hsp
    simp only [onPatchSelectorActivated]
    rw [if_neg hne, hsp]
    exact ⟨rfl, by simp⟩
  · intro t
    have hp : pystr "+" = ['+'] := rfl
    have hm : pystr "-" = ['-'] := rfl
    constructor <;> simp +decide [guardItem, hp, hm, List.isPrefixOf]
  · intro c t h1 h2
    have h1' : ¬('+' = c) := fun e => h1 e.symm
    have h2' : ¬('-' = c) := fun e => h2 e.symm
    have hp : pystr "+" = ['+'] := rfl
    have hm : pystr "-" = ['-'] := rfl
    simp [guardItem, hp, hm, List.isPrefixOf, h1', h2']

/-- Witness for `guards_dialog_from_response` at a concrete response. -/
theorem guards_dialog_from_response_witness :
    strip (pystr "patch1: +alpha -beta gamma") ≠ [] ∧
    splitFirst (pystr ":") (strip (pystr "patch1: +alpha -beta gamma")) =
      some (pystr "patch1", pystr " +alpha -beta gamma") ∧
    onPatchSelectorActivated (pystr "patch1: +alpha -beta gamma") =
      .ok ⟨pystr "patch1",
        [(pystr "alpha", some .plus), (pystr "beta", some .minus),
         (pystr "Unguarded", none)]⟩ :=
  ⟨by decide, by decide, by
    have := (guards_dialog_from_response.1 (pystr "patch1: +alpha -beta gamma")
      (pystr "patch1") (pystr " +alpha -beta gamma")
      (by decide) (by decide)).1
    rw [this]
    decide⟩

/-- C5: when the reflog dialog is closed or finished while its git process
is still running, it first requests polite termination, then schedules the
forced kill 2000 ms later, then waits up to 3000 ms for the process to
finish; the scheduled forced kill comes strictly after the polite
terminate in both traces (and nothing happens when the process is not
running). -/
theorem reflog_shutdown_terminate_before_kill :
    closeEventProcTrace true =
      [.terminate, .scheduleKill 2000, .waitForFinished 3000] ∧
    finishProcTrace true =
      [.terminate, .scheduleKill 2000, .waitForFinished 3000] ∧
    closeEventProcTrace false = [] ∧ finishProcTrace false = [] ∧
    (closeEventProcTrace true).indexOf ProcEvent.terminate <
      (closeEventProcTrace true).indexOf (ProcEvent.scheduleKill 2000) ∧
    (finishProcTrace true).indexOf ProcEvent.terminate <
      (finishProcTrace true).indexOf (ProcEvent.scheduleKill 2000) := by
  decide

/-- C6: if the git subprocess fails to start within the startup wait, the
reflog dialog disables and hides its input group, shows the modal critical
error dialog whose message names the `git` executable, and adds no reflog
rows for that invocation. -/
theorem reflog_start_failure_modal_error_no_rows :
    ∀ stdoutLines : List PyStr,
      reflogFetchInvocation false stdoutLines =
        { inputGroupEnabled := false, inputGroupVisible := false,
          criticalDialog := some procGenErrorMsg, rowsAdded := [] } ∧
      containsSub (pystr "git") procGenErrorMsg = true := by
  intro s
  exact ⟨rfl, by decide⟩

/-- C7: both dialogs rebuild their data on every refresh: the bookmarks
dialog's start result is independent of the previous tree and bookmarks
list (they are cleared before any parsing — even when no repository root
is found), the bookmarks list afterwards is exactly what the parsing loop
produced from the latest output, and the reflog dialog's refresh cycle is
independent of the previous tree and yields exactly the rows parsed from
the latest buffered output. -/
theorem dialogs_rebuild_on_refresh :
    (∀ (st st' : HgDialogState) (repoFound : Bool) (out : PyStr)
        (cancels : List Bool),
        hgStart st repoFound out cancels = hgStart st' repoFound out cancels) ∧
    (∀ (st : HgDialogState) (out : PyStr) (cancels : List Bool),
        hgStart st false out cancels = (⟨[], []⟩, none)) ∧
    (∀ (st : HgDialogState) (out : PyStr) (cancels : List Bool),
        (hgStart st true out cancels).1.bookmarks =
          (hgProcessLinesAux [] (if out = [] then [] else pySplitlines out)
            cancels).2.1) ∧
    (∀ (t1 t2 : List ReflogRow) (lines : List PyStr),
        gitRefreshCycle t1 lines = gitRefreshCycle t2 lines) ∧
    (∀ (t : List ReflogRow) (lines : List PyStr),
        gitRefreshCycle t lines = processBuffer lines) := by
  refine ⟨fun _ _ _ _ _ => rfl, fun _ _ _ => rfl, ?_, fun _ _ _ => rfl, ?_⟩
  · intro st out cancels
    rcases h : hgProcessLinesAux [] (if out = [] then [] else pySplitlines out)
        cancels with ⟨items, bms, err⟩
    simp only [hgStart, h]
    rcases err with _ | e
    · simp only [List.nil_append, if_true]
      split <;> rfl
    · rfl
  · intro t lines
    simp [gitRefreshCycle]

/-! ### C9/C10 theorems -/

/-- C9: the web-inspector view registry keeps each view at most once:
`registerView` prepends a not-yet-registered view preserving uniqueness,
`pushView` removes any existing occurrence before prepending so the view
ends at index 0 with exactly one occurrence, `unregisterView` removes the
view when present and is a no-op otherwise, and all three are no-ops when
the registry is `None`. -/
theorem webinspector_view_registry_unique {α : Type} [DecidableEq α] (l : List α) (v : α)
    (hnd : l.Nodup) :
    (v ∉ l → registerView (some l) v = some (v :: l) ∧ (v :: l).Nodup) ∧
    (pushView (some l) v = some (v :: l.erase v) ∧
      (v :: l.erase v).head? = some v ∧ (v :: l.erase v).count v = 1 ∧
      (v :: l.erase v).Nodup) ∧
    (v ∈ l → unregisterView (some l) v = some (l.erase v) ∧
      (l.erase v).Nodup ∧ v ∉ l.erase v) ∧
    (v ∉ l → unregisterView (some l) v = some l) ∧
    registerView (none : Option (List α)) v = none ∧
    pushView (none : Option (List α)) v = none ∧
    unregisterView (none : Option (List α)) v = none := by
  have hvne : v ∉ l.erase v := by
    intro hv
    exact absurd rfl ((List.Nodup.mem_erase_iff hnd).mp hv).1
  refine ⟨?_, ⟨?_, rfl, ?_, ?_⟩, ?_, ?_, rfl, rfl, rfl⟩
  · intro hv
    exact ⟨rfl, List.nodup_cons.mpr ⟨hv, hnd⟩⟩
  · by_cases hm : v ∈ l
    · simp [pushView, hm]
    · simp [pushView, hm, List.erase_of_not_mem hm]
  · rw [List.count_cons_self, List.count_eq_zero.mpr hvne]
  · exact List.nodup_cons.mpr ⟨hvne, hnd.erase v⟩
  · intro hm
    exact ⟨by simp [unregisterView, hm], hnd.erase v, hvne⟩
  · intro hm
    simp [unregisterView, hm]

/-- Witness for `webinspector_view_registry_unique` on concrete lists. -/
theorem webinspector_view_registry_unique_witness :
    (([1, 2, 3] : List Nat).Nodup ∧ (2 : Nat) ∈ [1, 2, 3]) ∧
    unregisterView (some [1, 2, 3]) (2 : Nat) = some ([1, 2, 3].erase 2) ∧
    pushView (some [1, 2, 3]) (2 : Nat) = some (2 :: [1, 2, 3].erase 2) ∧
    ((1 : Nat) ∉ [2, 3] ∧
      registerView (some [2, 3]) (1 : Nat) = some [1, 2, 3]) :=
  ⟨⟨by decide, by decide⟩,
   ((webinspector_view_registry_unique [1, 2, 3] 2 (by decide)).2.2.1 (by decide)).1,
   (webinspector_view_registry_unique [1, 2, 3] 2 (by decide)).2.1.1,
   ⟨by decide, ((webinspector_view_registry_unique [2, 3] 1 (by decide)).1 (by decide)).1⟩⟩

/-- C10: the Python configuration page's save never persists an empty
encoding — an empty combo-box text is stored as `utf-8`, a non-empty text
is stored unchanged (and the extension edits are stored as given). -/
theorem pythonpage_save_no_empty_encoding :
    ∀ (sT ioT p2 p3 : PyStr) (prefs : SystemPrefs),
      (pythonPageSave sT ioT p2 p3 prefs).stringEncoding =
        (if sT = [] then pystr "utf-8" else sT) ∧
      (pythonPageSave sT ioT p2 p3 prefs).ioEncoding =
        (if ioT = [] then pystr "utf-8" else ioT) ∧
      (pythonPageSave sT ioT p2 p3 prefs).pythonExtensions = p2 ∧
      (pythonPageSave sT ioT p2 p3 prefs).python3Extensions = p3 ∧
      (pythonPageSave sT ioT p2 p3 prefs).stringEncoding ≠ [] ∧
      (pythonPageSave sT ioT p2 p3 prefs).ioEncoding ≠ [] := by
  intro sT ioT p2 p3 prefs
  refine ⟨rfl, rfl, rfl, rfl, ?_, ?_⟩
  · show (if sT = [] then pystr "utf-8" else sT) ≠ []
    split
    · decide
    · assumption
  · show (if ioT = [] then pystr "utf-8" else ioT) ≠ []
    split
    · decide
    · assumption

/-! ### C8 theorems -/

lemma httpLoop_spec :
    ∀ (rest acc : List PyStr) (k : Nat), (acc = [] ↔ k = 0) →
      httpLoop rest acc (qseq k) = acc ++ mkEntries k rest
  | [], acc, k, _ => by simp [httpLoop, mkEntries]
  | l :: ls, acc, k, h => by
    rw [httpLoop]
    by_cases hk : k = 0
    · subst hk
      rw [if_pos (h.mpr rfl), h.mpr rfl]
      have hstep : (if d01.lt (qseq 0) then floatSub (qseq 0) d01 else qseq 0) =
          qseq 1 := rfl
      rw [hstep]
      rw [show ([] : List PyStr) ++ [extractTag l] = [extractTag l] from rfl]
      rw [httpLoop_spec ls [extractTag l] 1 (by simp)]
      simp [mkEntries, mkEntry]
    · have hacc : acc ≠ [] := fun e => hk (h.mp e)
      rw [if_neg hacc]
      have : (if d01.lt (qseq k) then floatSub (qseq k) d01 else qseq k) =
          qseq (k + 1) := rfl
      rw [this]
      rw [httpLoop_spec ls _ (k + 1) (by simp)]
      simp [mkEntries, mkEntry, hk]

lemma qseq_ge10 : ∀ k : Nat, qseq (10 + k) = qseq 10
  | 0 => rfl
  | k + 1 => by
    show qstep (qseq (10 + k)) = qseq 10
    rw [qseq_ge10 k]
    show qstep (qseq 10) = qseq 10
    rw [qstep, if_neg (by decide)]

/-- C8, amended: `httpString` preserves input order; the entry at 0-based
position 0 carries no quality parameter and the entry at position `i ≥ 1`
carries `;q=` followed by the one-decimal formatting of the binary64 value
of `qvalue` at iteration `i`.  That value formats as `1.0 - 0.1*i` for
`i = 1..9` (reaching `0.1` at position 9); but because the accumulated
binary64 value at position 9 (≈ 0.10000000000000014) still exceeds
binary64 `0.1`, one further subtraction happens and every entry from
position 10 onward carries `q=0.0`, not `q=0.1`. -/
theorem httpString_quality_values :
    (∀ languages : List PyStr,
        httpString languages = pyJoin (pystr ", ") (mkEntries 0 languages)) ∧
    (∀ i : Nat, 1 ≤ i → i ≤ 9 →
        fmt1f (qseq i) = '0' :: '.' :: Nat.toDigits 10 (10 - i)) ∧
    (∀ i : Nat, 10 ≤ i → fmt1f (qseq i) = pystr "0.0") := by
  refine ⟨?_, ?_, ?_⟩
  · intro languages
    rw [httpString, show (Frac.ofInt 1) = qseq 0 from rfl]
    rw [httpLoop_spec languages [] 0 (by simp)]
    simp
  · intro i h1 h2
    interval_cases i <;> decide
  · intro i h
    obtain ⟨k, rfl⟩ : ∃ k, i = 10 + k := ⟨i - 10, by omega⟩
    rw [qseq_ge10 k]
    decide

/-- C8, counterexample: with eleven languages the entry at position 10
carries `q=0.0`, not the claimed `q=0.1`. -/
theorem httpString_quality_floor_counterexample :
    httpString [pystr "[a]", pystr "[b]", pystr "[c]", pystr "[d]",
        pystr "[e]", pystr "[f]", pystr "[g]", pystr "[h]", pystr "[i]",
        pystr "[j]", pystr "[k]"] =
      pystr "a, b;q=0.9, c;q=0.8, d;q=0.7, e;q=0.6, f;q=0.5, g;q=0.4, h;q=0.3, i;q=0.2, j;q=0.1, k;q=0.0" ∧
    httpString [pystr "[a]", pystr "[b]", pystr "[c]", pystr "[d]",
        pystr "[e]", pystr "[f]", pystr "[g]", pystr "[h]", pystr "[i]",
        pystr "[j]", pystr "[k]"] ≠
      pystr "a, b;q=0.9, c;q=0.8, d;q=0.7, e;q=0.6, f;q=0.5, g;q=0.4, h;q=0.3, i;q=0.2, j;q=0.1, k;q=0.1" := by
  constructor <;> decide

/-- Witness for `httpString_quality_values` at concrete inputs. -/
theorem httpString_quality_values_witness :
    httpString [pystr "[en-US]", pystr "[de]"] =
      pyJoin (pystr ", ") (mkEntries 0 [pystr "[en-US]", pystr "[de]"]) ∧
    ((1 : Nat) ≤ 1 ∧ (1 : Nat) ≤ 9 ∧
      fmt1f (qseq 1) = '0' :: '.' :: Nat.toDigits 10 (10 - 1)) ∧
    ((10 : Nat) ≤ 12 ∧ fmt1f (qseq 12) = pystr "0.0") :=
  ⟨httpString_quality_values.1 [pystr "[en-US]", pystr "[de]"],
   ⟨by decide, by decide, httpString_quality_values.2.1 1 (by decide) (by decide)⟩,
   ⟨by decide, httpString_quality_values.2.2 12 (by decide)⟩⟩

end Eric6
